import Mathlib

/-!
# Verification of the NMDOT CAD → GIS conversion tool

Shallow embedding of `scripts/cad_to_gdb_wrapper.py` (the only source file of
the repository) and proofs about the properties stated in the design
specification.

Modelling conventions:
* Python strings are modelled as `List Char` (`Str` below).  Python's
  `str.isalnum` / `str.isdigit` / `str.lower` / `str.strip` are modelled by
  ASCII predicates (`Char.isAlphanum`, `Char.isDigit`, `Char.toLower`,
  `pyIsSpace`) that agree exactly with Python's Unicode-aware versions on
  ASCII characters.  All concrete inputs appearing in the program, in
  counterexamples and in witnesses are ASCII; theorems that quantify over
  arbitrary sanitizer inputs carry an explicit ASCII-input hypothesis so
  that they assert nothing outside the fragment where the embedding is the
  code.
* Path operations (`os.path.join`, `os.path.normpath`, `os.path.basename`)
  are modelled with POSIX separator semantics (`'/'`).
* `datetime.now()` is modelled by passing the clock value explicitly as a
  `Timestamp`; `strftime("%Y%m%d_%H%M%S")` is modelled by `Timestamp.fmt`.
* Filesystem state and the opaque external collaborators (`arcpy`) are
  modelled by an explicit environment `Env`; calls that mutate the world are
  recorded as `Event`s in the order the script performs them, and messages /
  warnings / errors are recorded as tagged events.
-/

namespace CadToGdb

/-- Python strings, modelled as lists of characters. -/
abbrev Str := List Char

/-! ## Name sanitizer: `_clean_name` (source lines 66–82) -/

/-- The characters Python's `str.strip()` removes, on the ASCII range:
space, tab, newline, carriage return, vertical tab and form feed (the ASCII
characters satisfying `str.isspace`).  On non-ASCII text Python also strips
Unicode whitespace; theorems quantifying over arbitrary sanitizer inputs
therefore restrict to ASCII strings, where this set is exact. -/
def pyIsSpace (c : Char) : Bool :=
  c = ' ' || c = '\t' || c = '\n' || c = '\r' || c = '\x0b' || c = '\x0c'

/-- Python `str.strip()` — remove leading and trailing whitespace. -/
def pyStrip (s : Str) : Str :=
  ((s.dropWhile pyIsSpace).reverse.dropWhile pyIsSpace).reverse

/-- One character of `"".join(c if c.isalnum() else "_" for c in s)`.
`Char.isAlphanum` is the ASCII fragment of Python's Unicode-aware
`str.isalnum` (they agree exactly on ASCII characters; Python additionally
keeps non-ASCII alphanumerics such as `'é'`).  Theorems quantifying over
arbitrary sanitizer inputs therefore carry an ASCII-input hypothesis, under
which this model is the code. -/
def sanitizeChar (c : Char) : Char :=
  if c.isAlphanum then c else '_'

/-- `"__" in cleaned` — does the string contain two consecutive underscores? -/
def hasUU : Str → Bool
  | [] => false
  | [_] => false
  | c :: c' :: rest => (c = '_' && c' = '_') || hasUU (c' :: rest)

/-- One pass of Python `cleaned.replace("__", "_")`: replace non-overlapping
occurrences of `"__"` left to right. -/
def replaceUU : Str → Str
  | [] => []
  | [c] => [c]
  | c :: c' :: rest =>
    if c = '_' ∧ c' = '_' then '_' :: replaceUU rest
    else c :: replaceUU (c' :: rest)

/-- The `while "__" in cleaned: cleaned = cleaned.replace("__", "_")` loop.
Each iteration of the Python loop strictly shortens the string, so running the
loop body `fuel` times with `fuel ≥ length` reaches the loop's fixed point;
`collapseUU` below instantiates the fuel accordingly. -/
def collapseLoop : Nat → Str → Str
  | 0, s => s
  | fuel + 1, s => if hasUU s then collapseLoop fuel (replaceUU s) else s

/-- The result of the underscore-collapsing `while` loop of `_clean_name`. -/
def collapseUU (s : Str) : Str :=
  collapseLoop s.length s

/-- Python `cleaned.strip("_")` — remove leading and trailing underscores. -/
def stripUnd (s : Str) : Str :=
  ((s.dropWhile (· = '_')).reverse.dropWhile (· = '_')).reverse

/-- `_clean_name` (source lines 66–82): trim whitespace; empty input yields
`"CAD_Project"`; replace each non-alphanumeric character by `'_'`; prepend
`"X_"` when the first character is a digit; collapse repeated underscores;
strip leading/trailing underscores; truncate to 64 characters. -/
def clean_name (s : Str) : Str :=
  let t := pyStrip s
  if t = [] then "CAD_Project".data
  else
    let cleaned := t.map sanitizeChar
    let cleaned2 :=
      match cleaned with
      | c :: _ => if c.isDigit then 'X' :: '_' :: cleaned else cleaned
      | [] => cleaned
    (stripUnd (collapseUU cleaned2)).take 64

/-! ## Timestamps and the unique store/container allocator
(source lines 101–109 and 259–261) -/

/-- The decimal digit character for `n < 10` (used to model `strftime`'s
zero-padded numeric fields). -/
def digitChar : Nat → Char
  | 0 => '0' | 1 => '1' | 2 => '2' | 3 => '3' | 4 => '4'
  | 5 => '5' | 6 => '6' | 7 => '7' | 8 => '8' | 9 => '9'
  | _ => '0'

/-- Two-digit zero-padded decimal rendering (`"%m"`, `"%d"`, `"%H"`, `"%M"`,
`"%S"`). -/
def pad2 (n : Nat) : Str :=
  [digitChar (n / 10), digitChar (n % 10)]

/-- Four-digit zero-padded decimal rendering (`"%Y"` for years `< 10000`). -/
def pad4 (n : Nat) : Str :=
  pad2 (n / 100) ++ pad2 (n % 100)

/-- A wall-clock reading, as used by `datetime.now()`. -/
structure Timestamp where
  year : Nat
  month : Nat
  day : Nat
  hour : Nat
  minute : Nat
  sec : Nat
deriving DecidableEq

/-- Field bounds under which the fixed-width `strftime` rendering is faithful
(every real calendar timestamp satisfies them). -/
def Timestamp.Valid (t : Timestamp) : Prop :=
  t.year < 10000 ∧ t.month < 100 ∧ t.day < 100 ∧
    t.hour < 100 ∧ t.minute < 100 ∧ t.sec < 100

instance (t : Timestamp) : Decidable t.Valid := by
  unfold Timestamp.Valid; infer_instance

/-- `datetime.now().strftime("%Y%m%d_%H%M%S")`. -/
def Timestamp.fmt (t : Timestamp) : Str :=
  pad4 t.year ++ pad2 t.month ++ pad2 t.day ++
    '_' :: (pad2 t.hour ++ pad2 t.minute ++ pad2 t.sec)

/-- `os.path.join` for one extra component, POSIX semantics: an absolute
second component replaces the first; otherwise a separator is inserted unless
the first component is empty or already ends with one. -/
def pjoin (a b : Str) : Str :=
  if b.head? = some '/' then b
  else if a = [] ∨ a.getLast? = some '/' then a ++ b
  else a ++ '/' :: b

/-- `_unique_gdb_path` (source lines 101–109):
`<output_folder>/<base_name>_Converted_<stamp>.gdb`, with the clock reading
passed explicitly. -/
def unique_gdb_path (output_folder base_name : Str) (t : Timestamp) : Str :=
  pjoin output_folder (base_name ++ "_Converted_".data ++ t.fmt ++ ".gdb".data)

/-- The staging-dataset name computed in `main` (source lines 259–261):
`_clean_name(f"CAD_RAW_{project_name}_{stamp}")`. -/
def allocate_container_name (project_name : Str) (t : Timestamp) : Str :=
  clean_name ("CAD_RAW_".data ++ project_name ++ '_' :: t.fmt)

/-- A well-behaved project identifier, as `_clean_name` typically produces:
non-empty, made of sanitizer-fixed non-whitespace characters, with no double
underscore and no underscore at either end. -/
def CleanId (id : Str) : Prop :=
  id ≠ [] ∧ (∀ c ∈ id, sanitizeChar c = c ∧ c.isWhitespace = false) ∧
    hasUU id = false ∧ id.head? ≠ some '_' ∧ id.getLast? ≠ some '_'

instance (id : Str) : Decidable (CleanId id) := by
  unfold CleanId; infer_instance

/-! ## CAD file discoverer: `_find_cad_files` (source lines 84–98) -/

/-- An entry of the input directory tree: a plain file, or a subdirectory
with its own entries. -/
inductive FSTree where
  | file (name : Str)
  | dir (name : Str) (children : List FSTree)

/-- The entry's name, as listed by `os.listdir`. -/
def FSTree.nameOf : FSTree → Str
  | .file n => n
  | .dir n _ => n

/-- `os.listdir(folder)` — the names of all immediate entries (files and
subdirectories alike). -/
def listdir (children : List FSTree) : List Str :=
  children.map FSTree.nameOf

/-- The fixed extension tuple `(".dwg", ".dgn", ".dxf")`. -/
def cadExts : List Str := [".dwg".data, ".dgn".data, ".dxf".data]

/-- `f.lower().endswith((".dwg", ".dgn", ".dxf"))`. -/
def hasCadExt (f : Str) : Bool :=
  cadExts.any (fun e => e.isSuffixOf (f.map Char.toLower))

mutual

/-- The recursive branch of `_find_cad_files`: `os.walk` over the subtree,
keeping the paths `os.path.join(root, f)` of files whose name matches a CAD
extension.  (`os.walk` lists each directory's files before descending; the
collection order here interleaves them instead, which is irrelevant because
the caller sorts the result.) -/
def walkCollect (root : Str) : FSTree → List Str
  | .file f => if hasCadExt f then [pjoin root f] else []
  | .dir n c => walkCollectList (pjoin root n) c

/-- `walkCollect` over a list of sibling entries. -/
def walkCollectList (root : Str) : List FSTree → List Str
  | [] => []
  | t :: ts => walkCollect root t ++ walkCollectList root ts

end

mutual

/-- The matching paths of the subtree, relative to the walk root (used to
state which paths the recursive discovery returns). -/
def relPaths : FSTree → List Str
  | .file f => if hasCadExt f then [f] else []
  | .dir n c => (relPathsList c).map (fun r => n ++ '/' :: r)

/-- `relPaths` over a list of sibling entries. -/
def relPathsList : List FSTree → List Str
  | [] => []
  | t :: ts => relPaths t ++ relPathsList ts

end

/-- Python `sorted` on path strings: lexicographic by character code. -/
def sortStr (l : List Str) : List Str :=
  l.insertionSort (· ≤ ·)

/-- `_find_cad_files` (source lines 84–98): collect matching files — from the
full subtree when `recursive`, else from `os.listdir` of the folder — and
return them sorted. -/
def find_cad_files (folder : Str) (recursive : Bool) (children : List FSTree) :
    List Str :=
  let cad_files :=
    if recursive then walkCollectList folder children
    else (listdir children).filterMap
      (fun f => if hasCadExt f then some (pjoin folder f) else none)
  sortStr cad_files

/-- A directory-entry name as a real filesystem provides it: non-empty and
free of the path separator. -/
def goodNameB (s : Str) : Bool :=
  !s.isEmpty && !s.contains '/'

mutual

/-- Well-formedness of a tree entry: every name is a `goodNameB` name and
sibling names are distinct (true of any real directory tree). -/
def wfTree : FSTree → Bool
  | .file n => goodNameB n
  | .dir n c => goodNameB n && wfChildren c

/-- Well-formedness of a sibling list. -/
def wfChildren : List FSTree → Bool
  | [] => true
  | t :: ts => wfTree t && wfChildren ts && !(listdir ts).contains t.nameOf

end

/-! ## Path normalization: `os.path.basename(os.path.normpath(...))`
(source line 183), POSIX semantics -/

/-- Python `path.split('/')`. -/
def splitSlash : Str → List Str
  | [] => [[]]
  | c :: rest =>
    if c = '/' then [] :: splitSlash rest
    else
      match splitSlash rest with
      | h :: t => (c :: h) :: t
      | [] => [[c]]

/-- The number of leading slashes `posixpath.normpath` preserves: two when
the path starts with exactly two slashes (`path.startswith('//') and not
path.startswith('///')`), one for any other absolute path, zero otherwise. -/
def initSlashes (p : Str) : Nat :=
  if p.take 1 = ['/'] then
    if p.take 2 = ['/', '/'] ∧ ¬ p.take 3 = ['/', '/', '/'] then 2 else 1
  else 0

/-- The `".."` path component. -/
def dotdot : Str := ['.', '.']

/-- The component-processing loop of `posixpath.normpath`: skip empty and
`"."` components, push ordinary components, pop on `".."` (except at the root
of an absolute path, or when below nothing relative — then `".."` is kept or
dropped as CPython does).  `stack` holds the accepted components in reverse
order. -/
def processComps (absolute : Bool) : List Str → List Str → List Str
  | stack, [] => stack.reverse
  | stack, comp :: rest =>
    if comp = [] ∨ comp = ['.'] then processComps absolute stack rest
    else if comp ≠ dotdot ∨ (absolute = false ∧ stack = []) ∨
        stack.head? = some dotdot then
      processComps absolute (comp :: stack) rest
    else
      match stack with
      | _ :: s => processComps absolute s rest
      | [] => processComps absolute [] rest

/-- Python `'/'.join(comps)`. -/
def joinComps : List Str → Str
  | [] => []
  | [c] => c
  | c :: rest => c ++ '/' :: joinComps rest

/-- `posixpath.normpath`. -/
def normpath (p : Str) : Str :=
  if p = [] then ['.']
  else
    let k := initSlashes p
    let comps := processComps (k ≠ 0) [] (splitSlash p)
    let out := List.replicate k '/' ++ joinComps comps
    if out = [] then ['.'] else out

/-- `posixpath.basename` — everything after the last `'/'`. -/
def basename (p : Str) : Str :=
  (p.reverse.takeWhile (fun c => c ≠ '/')).reverse

/-- The project identifier `main` derives when no explicit project name is
supplied (source lines 181–184):
`_clean_name(os.path.basename(os.path.normpath(cad_folder)))`. -/
def default_project_identifier (folder : Str) : Str :=
  clean_name (basename (normpath folder))

/-! ## Extent checker, map registration, template copy -/

/-- A bounding extent as reported by `arcpy.Describe(...).extent`.
Coordinates are modelled as rationals (the comparison logic of the source
does not depend on floating-point rounding). -/
structure Extent where
  xmin : ℚ
  xmax : ℚ
  ymin : ℚ
  ymax : ℚ

/-- Warnings the script can emit via `arcpy.AddWarning`. -/
inductive Warn where
  | noProjection
  | extentSuspicious
  | noActiveMap
  | reminder
deriving DecidableEq

/-- Errors the script can emit via `arcpy.AddError`. -/
inductive Err where
  | invalidInput
  | noInputFiles (withHint : Bool)
  | outputRequired
  | missingTemplate
  | geoprocessing
  | gpDetails
  | unexpected
deriving DecidableEq

/-- Observable actions of one run, in program order: tagged messages and the
calls that touch the filesystem / geodatabase / map. -/
inductive Event where
  | error (e : Err)
  | warning (w : Warn)
  | message
  | makedirs (p : Str)
  | rmtree (p : Str)
  | copytree (src tgt : Str)
  | createDataset (gdb name : Str) (sr : Option Str)
  | convertCAD (files : List Str) (gdb name : Str) (refScale : Nat)
      (sr : Option Str)
  | addDataToMap (p : Str)
  | setParam (i : Nat) (v : Str)
deriving DecidableEq

/-- Is the event an `arcpy.AddError` report? -/
def Event.isError : Event → Bool
  | .error _ => true
  | _ => false

/-- Is the event an `arcpy.AddWarning` report? -/
def Event.isWarning : Event → Bool
  | .warning _ => true
  | _ => false

/-- Does the event create or replace on-disk state of the output store
(template clone or removal of an existing store)? -/
def Event.isStoreEffect : Event → Bool
  | .copytree _ _ => true
  | .rmtree _ => true
  | _ => false

/-- How the visualization host behaves when `_add_dataset_to_map` calls it:
opening the project raises, no map is active, `addDataFromPath` raises, or
everything succeeds. -/
inductive MapHostBehavior where
  | projectUnavailable
  | noActiveMap
  | addRaises
  | ok
deriving DecidableEq

/-- `_add_dataset_to_map` (source lines 117–130).  The whole body is wrapped
in `try/except Exception`; an exception from the host yields
`arcpy.AddMessage("Auto-add to map skipped: ...")`, a missing active map
yields `arcpy.AddWarning(...)`, success adds the data and reports it.  The
function always returns normally. -/
def add_dataset_to_map (host : MapHostBehavior) (dataset_path : Str) :
    List Event :=
  match host with
  | .projectUnavailable => [.message]
  | .noActiveMap => [.warning .noActiveMap]
  | .addRaises => [.message]
  | .ok => [.addDataToMap dataset_path, .message]

/-- `_warn_if_extent_suspicious` (source lines 132–146); `none` models
`arcpy.Describe` raising, which the `except: pass` swallows. -/
def warn_if_extent_suspicious (extent : Option Extent) : List Event :=
  match extent with
  | none => []
  | some e =>
    if 5000000 < |e.xmax - e.xmin| ∨ 5000000 < |e.ymax - e.ymin| then
      [.warning .extentSuspicious]
    else []

/-- `_copy_template_gdb` (source lines 111–115): when the target already
exists it is deleted with `shutil.rmtree` before `shutil.copytree`; nothing
is raised in either case. -/
def copy_template_gdb (targetExists : Bool) (template_gdb target_gdb : Str) :
    List Event :=
  if targetExists then [.rmtree target_gdb, .copytree template_gdb target_gdb]
  else [.copytree template_gdb target_gdb]

/-! ## The orchestrator: `main` (source lines 148–314) -/

/-- The six script-tool parameters (source lines 156–161).  Unset text
parameters arrive as the empty string. -/
structure Params where
  cad_folder : Str
  output_folder : Str
  prj_file : Str
  project_name : Str
  auto_add : Bool
  search_subfolders : Bool

/-- The world `main` runs against: filesystem predicates, the input
directory's tree, the two `datetime.now()` readings, and the behavior of the
opaque arcpy collaborators.  `createOk` / `engineOk` model whether
`CreateFeatureDataset` / `CADToGeodatabase` raise `ExecuteError`. -/
structure Env where
  isdir : Str → Bool
  isfile : Str → Bool
  tree : List FSTree
  scriptDir : Str
  templateExists : Bool
  pathExists : Str → Bool
  now1 : Timestamp
  now2 : Timestamp
  createOk : Bool
  engineOk : Bool
  extent : Option Extent
  mapHost : MapHostBehavior

/-- How the `main` invocation ends: falls off the end of the `try` suite and
runs the epilogue, returns early from a precondition check, or re-raises an
exception. -/
inductive Outcome where
  | completed
  | returnedEarly
  | raised
deriving DecidableEq

/-- `n` consecutive `arcpy.AddMessage` progress lines. -/
def msgs (n : Nat) : List Event :=
  List.replicate n .message

/-- The project name `main` works with (source lines 181–184): the explicit
parameter if non-empty, else the input folder's base name; sanitized either
way. -/
def derive_project_name (p : Params) : Str :=
  let name :=
    if p.project_name = [] then basename (normpath p.cad_folder)
    else p.project_name
  clean_name name

/-- `main` (source lines 148–314), modelled step for step in program order.
Each `arcpy.AddMessage` is one `.message` event; errors and warnings carry
tags.  Early `return`s skip the epilogue (reminder warning and derived
output parameters), which only runs when the whole `try` suite falls
through. -/
def main (p : Params) (env : Env) : List Event × Outcome :=
  -- lines 177–179: input folder validation
  if p.cad_folder = [] ∨ env.isdir p.cad_folder = false then
    ([.error .invalidInput], .returnedEarly)
  else
    -- lines 181–184
    let project_name := derive_project_name p
    -- line 186
    let cad_files := find_cad_files p.cad_folder p.search_subfolders env.tree
    -- lines 187–192: the hint is appended when recursion was off
    if cad_files = [] then
      ([.error (.noInputFiles (!p.search_subfolders))], .returnedEarly)
    else
      -- line 193
      let ev := msgs 1
      -- lines 195–197
      if p.output_folder = [] then
        (ev ++ [.error .outputRequired], .returnedEarly)
      else
        -- line 198
        let ev := ev ++ [.makedirs p.output_folder]
        -- lines 200–204
        let noSR := p.prj_file = [] ∨ env.isfile p.prj_file = false
        let sr : Option Str := if noSR then none else some p.prj_file
        let ev := ev ++ (if noSR then [.warning .noProjection] else [])
        -- lines 206–215
        let ev := ev ++ (if noSR then msgs 1 else msgs 7)
        -- lines 217–221
        let template := pjoin env.scriptDir "template.gdb".data
        if env.templateExists = false then
          (ev ++ [.error .missingTemplate], .returnedEarly)
        else
          -- lines 229–231 (second, unreachable emptiness check kept as-is)
          if cad_files = [] then
            (ev ++ [.error (.noInputFiles false)], .returnedEarly)
          else
            -- lines 233–241
            let ev := ev ++ msgs 8
            -- line 244
            let out_gdb := unique_gdb_path p.output_folder project_name env.now1
            -- lines 247–252
            let ev := ev ++ msgs 4 ++
              copy_template_gdb (env.pathExists out_gdb) template out_gdb
            -- lines 254–263
            let staging := allocate_container_name project_name env.now2
            let ev := ev ++ msgs 4
            -- lines 264–267
            let ev := ev ++ [.createDataset out_gdb staging sr]
            if env.createOk = false then
              (ev ++ [.error .geoprocessing, .error .gpDetails], .raised)
            else
              -- lines 270–281
              let ev := ev ++ msgs 4 ++
                [.convertCAD cad_files out_gdb staging 1000 sr]
              if env.engineOk = false then
                (ev ++ [.error .geoprocessing, .error .gpDetails], .raised)
              else
                -- lines 283–287
                let staging_path := pjoin out_gdb staging
                let ev := ev ++ warn_if_extent_suspicious env.extent ++ msgs 3
                -- lines 289–294
                let ev := ev ++ msgs 3
                let ev := ev ++
                  (if p.auto_add then add_dataset_to_map env.mapHost staging_path
                   else [])
                -- lines 305–314: epilogue
                (ev ++ [.warning .reminder, .setParam 6 out_gdb,
                  .setParam 7 staging_path], .completed)

/-! # Theorems -/

/-! ## Sanity checks of the embedding on concrete inputs -/

example : clean_name "  ".data = "CAD_Project".data := by decide
example : clean_name "_".data = [] := by decide
example : clean_name "_1abc".data = "1abc".data := by decide
example : clean_name "9 Mile Rd!".data = "X_9_Mile_Rd".data := by decide

example : (Timestamp.mk 2025 12 15 19 0 10).fmt = "20251215_190010".data := by
  decide

example :
    allocate_container_name "Proj".data (Timestamp.mk 2025 12 15 19 0 10) =
      "CAD_RAW_Proj_20251215_190010".data := by decide

example : normpath "a/b/".data = "a/b".data := by decide
example : normpath "a//b/../c".data = "a/c".data := by decide
example : basename (normpath "d/_/".data) = "_".data := by decide

/-! ## Sanitizer lemmas -/

theorem collapseLoop_eq_self {fuel : Nat} {s : Str} (h : hasUU s = false) :
    collapseLoop fuel s = s := by
  cases fuel with
  | zero => rfl
  | succ n => simp [collapseLoop, h]

theorem mem_pyStrip {c : Char} {s : Str} (h : c ∈ pyStrip s) : c ∈ s := by
  simp only [pyStrip, List.mem_reverse] at h
  have h1 := (List.dropWhile_sublist _).subset h
  simp only [List.mem_reverse] at h1
  exact (List.dropWhile_sublist _).subset h1

theorem dropWhile_eq_self_of_head {p : Char → Bool} {s : Str}
    (h : ∀ c, s.head? = some c → p c = false) : s.dropWhile p = s := by
  cases s with
  | nil => rfl
  | cons c t => simp [List.dropWhile, h c rfl]

theorem stripUnd_eq_self {s : Str} (h1 : ∀ c, s.head? = some c → c ≠ '_')
    (h2 : ∀ c, s.getLast? = some c → c ≠ '_') : stripUnd s = s := by
  have e1 : s.dropWhile (· = '_') = s :=
    dropWhile_eq_self_of_head (by intro c hc; simpa using h1 c hc)
  have e2 : s.reverse.dropWhile (· = '_') = s.reverse :=
    dropWhile_eq_self_of_head (by
      intro c hc
      rw [List.head?_reverse] at hc
      simpa using h2 c hc)
  simp [stripUnd, e1, e2]

theorem pyStrip_eq_self {s : Str} (h : ∀ c ∈ s, pyIsSpace c = false) :
    pyStrip s = s := by
  have e1 : s.dropWhile pyIsSpace = s :=
    dropWhile_eq_self_of_head (by
      intro c hc
      exact h c (by
        cases s with
        | nil => simp at hc
        | cons a t =>
          simp at hc
          simp [hc]))
  have e2 : s.reverse.dropWhile pyIsSpace = s.reverse :=
    dropWhile_eq_self_of_head (by
      intro c hc
      rw [List.head?_reverse] at hc
      exact h c (List.mem_of_getLast?_eq_some hc))
  simp [pyStrip, e1, e2]

/-! ## Timestamp formatting lemmas -/

theorem digitChar_isDigit (n : Nat) : (digitChar n).isDigit = true := by
  match n with
  | 0 | 1 | 2 | 3 | 4 | 5 | 6 | 7 | 8 | 9 => decide
  | n + 10 => exact (by decide : ('0').isDigit = true)

theorem digitChar_inj : ∀ a < 10, ∀ b < 10, digitChar a = digitChar b → a = b := by
  decide

theorem isDigit_not_ws {c : Char} (h : c.isDigit = true) :
    pyIsSpace c = false := by
  rcases hw : pyIsSpace c with _ | _
  · rfl
  · simp only [pyIsSpace, Bool.or_eq_true, decide_eq_true_eq] at hw
    rcases hw with ((((rfl | rfl) | rfl) | rfl) | rfl) | rfl <;> simp at h

theorem sanitize_fix_not_space {c : Char} (h : sanitizeChar c = c) :
    pyIsSpace c = false := by
  rcases hw : pyIsSpace c with _ | _
  · rfl
  · simp only [pyIsSpace, Bool.or_eq_true, decide_eq_true_eq] at hw
    rcases hw with ((((rfl | rfl) | rfl) | rfl) | rfl) | rfl <;>
      exact absurd h (by decide)

theorem isDigit_ne_underscore {c : Char} (h : c.isDigit = true) : c ≠ '_' := by
  rintro rfl
  simp at h

theorem isDigit_sanitize_fix {c : Char} (h : c.isDigit = true) :
    sanitizeChar c = c := by
  unfold sanitizeChar
  rw [if_pos]
  simp [Char.isAlphanum, h]

theorem pad2_inj {a b : Nat} (ha : a < 100) (hb : b < 100) (h : pad2 a = pad2 b) :
    a = b := by
  simp only [pad2, List.cons.injEq, and_true] at h
  obtain ⟨h1, h2⟩ := h
  have e1 := digitChar_inj (a / 10) (by omega) (b / 10) (by omega) h1
  have e2 := digitChar_inj (a % 10) (by omega) (b % 10) (by omega) h2
  omega

theorem pad4_inj {a b : Nat} (ha : a < 10000) (hb : b < 10000)
    (h : pad4 a = pad4 b) : a = b := by
  unfold pad4 at h
  obtain ⟨h1, h2⟩ := List.append_inj h rfl
  have e1 := pad2_inj (by omega) (by omega) h1
  have e2 := pad2_inj (by omega) (by omega) h2
  omega

theorem mem_pad2 {c : Char} {n : Nat} (h : c ∈ pad2 n) : c.isDigit = true := by
  simp only [pad2, List.mem_cons, List.not_mem_nil, or_false] at h
  rcases h with rfl | rfl <;> exact digitChar_isDigit _

theorem mem_fmt {c : Char} {t : Timestamp} (h : c ∈ t.fmt) :
    c.isDigit = true ∨ c = '_' := by
  simp only [Timestamp.fmt, pad4, List.append_assoc, List.mem_append,
    List.mem_cons] at h
  rcases h with h | h | h | h | h | h | h | h
  · exact Or.inl (mem_pad2 h)
  · exact Or.inl (mem_pad2 h)
  · exact Or.inl (mem_pad2 h)
  · exact Or.inl (mem_pad2 h)
  · exact Or.inr h
  · exact Or.inl (mem_pad2 h)
  · exact Or.inl (mem_pad2 h)
  · exact Or.inl (mem_pad2 h)

theorem fmt_length (t : Timestamp) : t.fmt.length = 15 := rfl

theorem fmt_inj {t1 t2 : Timestamp} (hv1 : t1.Valid) (hv2 : t2.Valid)
    (h : t1.fmt = t2.fmt) : t1 = t2 := by
  obtain ⟨y1lt, m1lt, d1lt, h1lt, mi1lt, s1lt⟩ := hv1
  obtain ⟨y2lt, m2lt, d2lt, h2lt, mi2lt, s2lt⟩ := hv2
  simp only [Timestamp.fmt, List.append_assoc] at h
  obtain ⟨ey, h⟩ := List.append_inj h rfl
  obtain ⟨em, h⟩ := List.append_inj h rfl
  obtain ⟨ed, h⟩ := List.append_inj h rfl
  rw [List.cons.injEq] at h
  obtain ⟨-, h⟩ := h
  obtain ⟨eh, h⟩ := List.append_inj h rfl
  obtain ⟨emi, es⟩ := List.append_inj h rfl
  obtain ⟨y1, m1, d1, hh1, mi1, s1⟩ := t1
  obtain ⟨y2, m2, d2, hh2, mi2, s2⟩ := t2
  simp only [Timestamp.mk.injEq]
  simp only at y1lt m1lt d1lt h1lt mi1lt s1lt y2lt m2lt d2lt h2lt mi2lt s2lt
  exact ⟨pad4_inj y1lt y2lt ey, pad2_inj m1lt m2lt em, pad2_inj d1lt d2lt ed,
    pad2_inj h1lt h2lt eh, pad2_inj mi1lt mi2lt emi, pad2_inj s1lt s2lt es⟩

/-! ## Allocator lemmas -/

theorem pjoin_right_inj {a b1 b2 : Str} (hh : b1.head? = b2.head?)
    (h : pjoin a b1 = pjoin a b2) : b1 = b2 := by
  unfold pjoin at h
  by_cases h1 : b1.head? = some '/'
  · have h1' : b2.head? = some '/' := by rw [← hh]; exact h1
    rw [if_pos h1, if_pos h1'] at h
    exact h
  · have h1' : ¬ b2.head? = some '/' := by rw [← hh]; exact h1
    rw [if_neg h1, if_neg h1'] at h
    by_cases h2 : a = [] ∨ a.getLast? = some '/'
    · rw [if_pos h2, if_pos h2] at h
      exact List.append_cancel_left h
    · rw [if_neg h2, if_neg h2] at h
      have h3 := List.append_cancel_left h
      simpa using h3

theorem head?_append_fixed (base : Str) {rest1 rest2 : Str}
    (hh : rest1.head? = rest2.head?) :
    (base ++ rest1).head? = (base ++ rest2).head? := by
  cases base with
  | nil => simpa using hh
  | cons c t => simp

theorem head?_append_left {base r : Str} (hb : base ≠ []) :
    (base ++ r).head? = base.head? := by
  cases base with
  | nil => exact absurd rfl hb
  | cons c t => simp

/-- **Shared C1 lemma:** the store-path allocator is injective in the
timestamp, for any fixed output folder and base name. -/
theorem unique_gdb_path_inj (folder base : Str) {t1 t2 : Timestamp}
    (hv1 : t1.Valid) (hv2 : t2.Valid)
    (h : unique_gdb_path folder base t1 = unique_gdb_path folder base t2) :
    t1 = t2 := by
  unfold unique_gdb_path at h
  simp only [List.append_assoc] at h
  have hinner :
      ("_Converted_".data ++ (t1.fmt ++ ".gdb".data)).head? =
        ("_Converted_".data ++ (t2.fmt ++ ".gdb".data)).head? := by
    rw [head?_append_left (by decide), head?_append_left (by decide)]
  have hb := pjoin_right_inj (head?_append_fixed base hinner) h
  have h1 := List.append_cancel_left hb
  have h2 := List.append_cancel_left h1
  obtain ⟨hf, -⟩ := List.append_inj h2 rfl
  exact fmt_inj hv1 hv2 hf

theorem no_underscore_no_uu {l : Str} (h : ∀ c ∈ l, c ≠ '_') :
    hasUU l = false := by
  induction l using hasUU.induct with
  | case1 => rfl
  | case2 c => rfl
  | case3 c c' rest ih =>
    have hc : c ≠ '_' := h c (by simp)
    simp only [hasUU, Bool.or_eq_false_iff]
    constructor
    · simp [hc]
    · exact ih (fun x hx => h x (List.mem_cons_of_mem _ hx))

theorem hasUU_cons_underscore {l : Str} (hh : l.head? ≠ some '_')
    (hl : hasUU l = false) : hasUU ('_' :: l) = false := by
  cases l with
  | nil => rfl
  | cons c t =>
    simp only [List.head?_cons, ne_eq, Option.some.injEq] at hh
    simp only [hasUU, Bool.or_eq_false_iff]
    exact ⟨by simp [hh], hl⟩

theorem hasUU_append {u v : Str} (hu : hasUU u = false) (hv : hasUU v = false)
    (hj : ¬(u.getLast? = some '_' ∧ v.head? = some '_')) :
    hasUU (u ++ v) = false := by
  induction u using hasUU.induct with
  | case1 => simpa using hv
  | case2 c =>
    cases v with
    | nil => rfl
    | cons c' t =>
      simp only [List.singleton_append, hasUU, Bool.or_eq_false_iff]
      refine ⟨?_, hv⟩
      simp only [List.getLast?_singleton, List.head?_cons, not_and,
        Option.some.injEq] at hj
      by_cases hc : c = '_'
      · simp [hj hc]
      · simp [hc]
  | case3 c c' rest ih =>
    simp only [hasUU, Bool.or_eq_false_iff] at hu
    obtain ⟨hp, hu'⟩ := hu
    have hj' : ¬((c' :: rest).getLast? = some '_' ∧ v.head? = some '_') := by
      simpa [List.getLast?_cons_cons] using hj
    have := ih hu' hj'
    simp only [List.cons_append, hasUU, Bool.or_eq_false_iff]
    constructor
    · simpa using hp
    · simpa using this

/-! ## Claim C3 — the sanitizer's output guarantees -/

theorem map_id_of_mem {f : Char → Char} {l : Str} (h : ∀ c ∈ l, f c = c) :
    l.map f = l := by
  induction l with
  | nil => rfl
  | cons c t ih =>
    simp only [List.map_cons, h c (by simp), List.cons.injEq, true_and]
    exact ih (fun x hx => h x (List.mem_cons_of_mem _ hx))

theorem fmt_head (t : Timestamp) :
    t.fmt.head? = some (digitChar (t.year / 100 / 10)) := rfl

theorem fmt_getLast (t : Timestamp) :
    t.fmt.getLast? = some (digitChar (t.sec % 10)) := by
  simp [Timestamp.fmt, pad4, pad2, List.getLast?_append]

theorem no_uu_fmt (t : Timestamp) : hasUU t.fmt = false := by
  have h1 : ∀ c ∈ pad4 t.year ++ pad2 t.month ++ pad2 t.day, c ≠ '_' := by
    intro c hc
    simp only [pad4, List.append_assoc, List.mem_append] at hc
    rcases hc with hc | hc | hc | hc <;>
      exact isDigit_ne_underscore (mem_pad2 hc)
  have h2 : ∀ c ∈ pad2 t.hour ++ pad2 t.minute ++ pad2 t.sec, c ≠ '_' := by
    intro c hc
    simp only [List.append_assoc, List.mem_append] at hc
    rcases hc with hc | hc | hc <;>
      exact isDigit_ne_underscore (mem_pad2 hc)
  have hv : hasUU ('_' :: (pad2 t.hour ++ pad2 t.minute ++ pad2 t.sec)) = false := by
    apply hasUU_cons_underscore _ (no_underscore_no_uu h2)
    simp only [pad2, List.cons_append, List.head?_cons, ne_eq, Option.some.injEq]
    exact isDigit_ne_underscore (digitChar_isDigit _)
  apply hasUU_append (no_underscore_no_uu h1) hv
  rintro ⟨hlast, -⟩
  have : (digitChar (t.day % 10) : Char) = '_' := by
    have he : (pad4 t.year ++ pad2 t.month ++ pad2 t.day).getLast? =
        some (digitChar (t.day % 10)) := by
      simp [pad4, pad2, List.getLast?_append]
    rw [he] at hlast
    exact Option.some_injective _ hlast
  exact isDigit_ne_underscore (digitChar_isDigit _) this

theorem clean_name_fixpoint {l : Str} (hne : l ≠ [])
    (hws : ∀ c ∈ l, pyIsSpace c = false)
    (hmap : l.map sanitizeChar = l)
    (hd : ∀ c, l.head? = some c → c.isDigit = false)
    (huu : hasUU l = false)
    (hh : l.head? ≠ some '_') (hlast : l.getLast? ≠ some '_')
    (hlen : l.length ≤ 64) : clean_name l = l := by
  unfold clean_name
  rw [pyStrip_eq_self hws, if_neg hne, hmap]
  cases l with
  | nil => exact absurd rfl hne
  | cons c rest =>
    have hcd : c.isDigit = false := hd c rfl
    show (stripUnd (collapseUU
      (if c.isDigit = true then 'X' :: '_' :: c :: rest else c :: rest))).take 64 =
      c :: rest
    rw [if_neg (by simp [hcd])]
    unfold collapseUU
    rw [collapseLoop_eq_self huu]
    rw [stripUnd_eq_self
      (fun x hx => by rintro rfl; exact hh hx)
      (fun x hx => by rintro rfl; exact hlast hx)]
    exact List.take_of_length_le hlen

/-- **Shared C1 lemma:** for a well-behaved identifier short enough that the
timestamp survives the 64-character truncation, the sanitizer is the
identity on `CAD_RAW_<id>_<stamp>`. -/
theorem allocate_container_name_of_clean {id : Str} (hid : CleanId id)
    (hlen : id.length ≤ 40) (t : Timestamp) :
    allocate_container_name id t = "CAD_RAW_".data ++ id ++ '_' :: t.fmt := by
  obtain ⟨hne, hch, huu, hh, hlast⟩ := hid
  have hidhead : ∀ x, id.head? = some x → x ≠ '_' := by
    intro x hx
    rintro rfl
    exact hh hx
  unfold allocate_container_name
  apply clean_name_fixpoint
  · simp
  · intro c hc
    rw [List.append_assoc] at hc
    rcases List.mem_append.mp hc with hc | hc
    · have hall : ∀ x ∈ "CAD_RAW_".data, pyIsSpace x = false := by decide
      exact hall c hc
    · rcases List.mem_append.mp hc with hc | hc
      · exact sanitize_fix_not_space (hch c hc).1
      · rcases List.mem_cons.mp hc with rfl | hc
        · decide
        · rcases mem_fmt hc with hdig | rfl
          · exact isDigit_not_ws hdig
          · decide
  · rw [List.map_append, List.map_append]
    rw [show List.map sanitizeChar "CAD_RAW_".data = "CAD_RAW_".data by decide]
    rw [map_id_of_mem (fun c hc => (hch c hc).1)]
    rw [show List.map sanitizeChar ('_' :: t.fmt) = '_' :: t.fmt by
      rw [List.map_cons, show sanitizeChar '_' = '_' by decide,
        map_id_of_mem (show ∀ c ∈ t.fmt, sanitizeChar c = c by
          intro c hc
          rcases mem_fmt hc with hdig | rfl
          · exact isDigit_sanitize_fix hdig
          · decide)]]
  · intro c hc
    rw [List.append_assoc, head?_append_left (by decide)] at hc
    have h2 : 'C' = c := by simpa using hc
    subst h2
    decide
  · have hv1 : hasUU ('_' :: t.fmt) = false := by
      apply hasUU_cons_underscore _ (no_uu_fmt t)
      rw [fmt_head]
      simp only [ne_eq, Option.some.injEq]
      exact isDigit_ne_underscore (digitChar_isDigit _)
    have hv2 : hasUU (id ++ '_' :: t.fmt) = false := by
      apply hasUU_append huu hv1
      rintro ⟨h1, -⟩
      exact hlast h1
    rw [List.append_assoc]
    apply hasUU_append (by decide) hv2
    rintro ⟨-, h2⟩
    rw [head?_append_left hne] at h2
    exact hh h2
  · rw [List.append_assoc, head?_append_left (by decide)]
    decide
  · have hval : (("CAD_RAW_".data ++ id) ++ '_' :: t.fmt).getLast? =
        some (digitChar (t.sec % 10)) := by
      rw [List.getLast?_append]
      rw [show ('_' :: t.fmt).getLast? = some (digitChar (t.sec % 10)) by
        rw [List.getLast?_cons, fmt_getLast]
        rfl]
      rfl
    rw [hval]
    simp only [ne_eq, Option.some.injEq]
    exact isDigit_ne_underscore (digitChar_isDigit _)
  · have h8 : ("CAD_RAW_".data).length = 8 := by decide
    simp only [List.length_append, List.length_cons, fmt_length, h8]
    omega

/-- **Shared C1 lemma:** the container-name allocator is injective in the
timestamp for well-behaved identifiers of length at most 40. -/
theorem allocate_container_name_inj {id : Str} (hid : CleanId id)
    (hlen : id.length ≤ 40) {t1 t2 : Timestamp} (hv1 : t1.Valid)
    (hv2 : t2.Valid)
    (h : allocate_container_name id t1 = allocate_container_name id t2) :
    t1 = t2 := by
  rw [allocate_container_name_of_clean hid hlen t1,
    allocate_container_name_of_clean hid hlen t2] at h
  simp only [List.append_assoc] at h
  have h1 := List.append_cancel_left h
  have h2 := List.append_cancel_left h1
  have h3 : t1.fmt = t2.fmt := by simpa using h2
  exact fmt_inj hv1 hv2 h3

/-- **C1, counterexample.**  The claim asserts that the container-name
allocation is injective in the timestamp *including after the sanitizer's
length truncation*.  It fails on the code: for the 64-character identifier
`AAAA…A` (itself a fixed point of `_clean_name`, hence a reachable project
identifier), the names allocated at `2025-01-01 00:00:00` and
`2025-01-01 00:00:01` — two valid timestamps one second apart — are both
truncated to the same 64-character string with the timestamp cut off. -/
theorem c1_counterexample :
    clean_name (List.replicate 64 'A') = List.replicate 64 'A' ∧
    (Timestamp.mk 2025 1 1 0 0 0).Valid ∧
    (Timestamp.mk 2025 1 1 0 0 1).Valid ∧
    Timestamp.mk 2025 1 1 0 0 0 ≠ Timestamp.mk 2025 1 1 0 0 1 ∧
    allocate_container_name (List.replicate 64 'A')
        (Timestamp.mk 2025 1 1 0 0 0) =
      allocate_container_name (List.replicate 64 'A')
        (Timestamp.mk 2025 1 1 0 0 1) := by
  refine ⟨by decide, by decide, by decide, by decide, by decide⟩

/-- **C1 (amended).**  For every project identifier and every pair of
distinct valid timestamps, the allocated store paths are never equal; the
allocated staging-container names are never equal **provided** the sanitized
identifier is well behaved and at most 40 characters long, so that the
15-character timestamp survives the sanitizer's 64-character truncation (for
longer identifiers the truncation removes the timestamp and the names
coincide — see the counterexample). -/
theorem c1_allocators_inj (folder base id : Str) {t1 t2 : Timestamp}
    (hv1 : t1.Valid) (hv2 : t2.Valid) (hne : t1 ≠ t2) (hid : CleanId id)
    (hlen : id.length ≤ 40) :
    unique_gdb_path folder base t1 ≠ unique_gdb_path folder base t2 ∧
    allocate_container_name id t1 ≠ allocate_container_name id t2 := by
  constructor
  · intro h
    exact hne (unique_gdb_path_inj folder base hv1 hv2 h)
  · intro h
    exact hne (allocate_container_name_inj hid hlen hv1 hv2 h)

/-- **C1, witness.**  The amended theorem instantiated at concrete folder,
base name, identifier `"Proj"` and the two timestamps of the
counterexample. -/
theorem c1_allocators_inj_witness :
    unique_gdb_path "out".data "Proj".data (Timestamp.mk 2025 1 1 0 0 0) ≠
      unique_gdb_path "out".data "Proj".data (Timestamp.mk 2025 1 1 0 0 1) ∧
    allocate_container_name "Proj".data (Timestamp.mk 2025 1 1 0 0 0) ≠
      allocate_container_name "Proj".data (Timestamp.mk 2025 1 1 0 0 1) :=
  c1_allocators_inj "out".data "Proj".data "Proj".data (by decide) (by decide)
    (by decide) (by decide) (by decide)

/-! ## Orchestrator trace lemmas -/

/-- **Shared lemma:** the exact event trace of a run that passes every
precondition and whose geodatabase calls succeed.  All later orchestrator
claims are read off this equation. -/
theorem main_success (p : Params) (env : Env)
    (h1 : ¬(p.cad_folder = [] ∨ env.isdir p.cad_folder = false))
    (h2 : ¬ find_cad_files p.cad_folder p.search_subfolders env.tree = [])
    (h3 : ¬ p.output_folder = [])
    (h4 : ¬ env.templateExists = false)
    (h5 : ¬ env.createOk = false)
    (h6 : ¬ env.engineOk = false) :
    main p env =
      (msgs 1 ++ [.makedirs p.output_folder] ++
        (if p.prj_file = [] ∨ env.isfile p.prj_file = false then
          [.warning .noProjection] else []) ++
        (if p.prj_file = [] ∨ env.isfile p.prj_file = false then msgs 1
          else msgs 7) ++
        msgs 8 ++ msgs 4 ++
        copy_template_gdb
          (env.pathExists
            (unique_gdb_path p.output_folder (derive_project_name p) env.now1))
          (pjoin env.scriptDir "template.gdb".data)
          (unique_gdb_path p.output_folder (derive_project_name p) env.now1) ++
        msgs 4 ++
        [.createDataset
          (unique_gdb_path p.output_folder (derive_project_name p) env.now1)
          (allocate_container_name (derive_project_name p) env.now2)
          (if p.prj_file = [] ∨ env.isfile p.prj_file = false then none
            else some p.prj_file)] ++
        msgs 4 ++
        [.convertCAD (find_cad_files p.cad_folder p.search_subfolders env.tree)
          (unique_gdb_path p.output_folder (derive_project_name p) env.now1)
          (allocate_container_name (derive_project_name p) env.now2) 1000
          (if p.prj_file = [] ∨ env.isfile p.prj_file = false then none
            else some p.prj_file)] ++
        warn_if_extent_suspicious env.extent ++ msgs 3 ++ msgs 3 ++
        (if p.auto_add then
          add_dataset_to_map env.mapHost
            (pjoin
              (unique_gdb_path p.output_folder (derive_project_name p) env.now1)
              (allocate_container_name (derive_project_name p) env.now2))
          else []) ++
        [.warning .reminder,
         .setParam 6
           (unique_gdb_path p.output_folder (derive_project_name p) env.now1),
         .setParam 7
           (pjoin
             (unique_gdb_path p.output_folder (derive_project_name p) env.now1)
             (allocate_container_name (derive_project_name p) env.now2))],
       .completed) := by
  unfold main
  rw [if_neg h1, if_neg h2, if_neg h3, if_neg h4, if_neg h2, if_neg h5,
    if_neg h6]

/-! ## Claim C2 — provisioning over a pre-existing store -/

/-- **C2, counterexample.**  The claim states that when the allocated store
path already exists, provisioning fails loudly and the pre-existing store's
contents are not silently deleted.  It fails on the code: in a run whose
environment reports every path as existing, the run completes with no error
at all, and the trace contains the `shutil.rmtree` of the allocated path —
the pre-existing store is silently deleted and replaced. -/
theorem c2_counterexample :
    (main
      ⟨"in".data, "out".data, [], "P".data, false, false⟩
      { isdir := fun _ => true, isfile := fun _ => false,
        tree := [.file "a.dwg".data], scriptDir := "s".data,
        templateExists := true, pathExists := fun _ => true,
        now1 := ⟨2025, 1, 1, 0, 0, 0⟩, now2 := ⟨2025, 1, 1, 0, 0, 0⟩,
        createOk := true, engineOk := true, extent := none,
        mapHost := .ok }).2 = .completed ∧
    Event.rmtree
        (unique_gdb_path "out".data "P".data ⟨2025, 1, 1, 0, 0, 0⟩) ∈
      (main
        ⟨"in".data, "out".data, [], "P".data, false, false⟩
        { isdir := fun _ => true, isfile := fun _ => false,
          tree := [.file "a.dwg".data], scriptDir := "s".data,
          templateExists := true, pathExists := fun _ => true,
          now1 := ⟨2025, 1, 1, 0, 0, 0⟩, now2 := ⟨2025, 1, 1, 0, 0, 0⟩,
          createOk := true, engineOk := true, extent := none,
          mapHost := .ok }).1 ∧
    (main
      ⟨"in".data, "out".data, [], "P".data, false, false⟩
      { isdir := fun _ => true, isfile := fun _ => false,
        tree := [.file "a.dwg".data], scriptDir := "s".data,
        templateExists := true, pathExists := fun _ => true,
        now1 := ⟨2025, 1, 1, 0, 0, 0⟩, now2 := ⟨2025, 1, 1, 0, 0, 0⟩,
        createOk := true, engineOk := true, extent := none,
        mapHost := .ok }).1.all (fun e => ! e.isError) = true := by
  decide

/-- **C2 (amended).**  When the allocated output store path already exists
at provisioning time, provisioning does **not** fail: the run removes the
pre-existing store, re-clones the template into the same path
(last-writer-wins) and completes normally. -/
theorem c2_preexisting_store (p : Params) (env : Env)
    (h1 : ¬(p.cad_folder = [] ∨ env.isdir p.cad_folder = false))
    (h2 : ¬ find_cad_files p.cad_folder p.search_subfolders env.tree = [])
    (h3 : ¬ p.output_folder = [])
    (h4 : ¬ env.templateExists = false)
    (h5 : ¬ env.createOk = false)
    (h6 : ¬ env.engineOk = false)
    (hex : env.pathExists
      (unique_gdb_path p.output_folder (derive_project_name p) env.now1) =
        true) :
    (main p env).2 = .completed ∧
    Event.rmtree
        (unique_gdb_path p.output_folder (derive_project_name p) env.now1) ∈
      (main p env).1 ∧
    Event.copytree (pjoin env.scriptDir "template.gdb".data)
        (unique_gdb_path p.output_folder (derive_project_name p) env.now1) ∈
      (main p env).1 := by
  rw [main_success p env h1 h2 h3 h4 h5 h6]
  refine ⟨rfl, ?_, ?_⟩ <;>
    simp [copy_template_gdb, hex]

/-- **C2, witness.**  The amended theorem at a concrete run whose
environment reports the allocated path as already existing. -/
theorem c2_preexisting_store_witness :
    (main
      ⟨"in2".data, "out2".data, [], "Q".data, false, false⟩
      { isdir := fun _ => true, isfile := fun _ => false,
        tree := [.file "b.dxf".data], scriptDir := "s".data,
        templateExists := true, pathExists := fun _ => true,
        now1 := ⟨2026, 2, 3, 4, 5, 6⟩, now2 := ⟨2026, 2, 3, 4, 5, 6⟩,
        createOk := true, engineOk := true, extent := none,
        mapHost := .ok }).2 = .completed ∧
    Event.rmtree
        (unique_gdb_path "out2".data "Q".data ⟨2026, 2, 3, 4, 5, 6⟩) ∈
      (main
        ⟨"in2".data, "out2".data, [], "Q".data, false, false⟩
        { isdir := fun _ => true, isfile := fun _ => false,
          tree := [.file "b.dxf".data], scriptDir := "s".data,
          templateExists := true, pathExists := fun _ => true,
          now1 := ⟨2026, 2, 3, 4, 5, 6⟩, now2 := ⟨2026, 2, 3, 4, 5, 6⟩,
          createOk := true, engineOk := true, extent := none,
          mapHost := .ok }).1 ∧
    Event.copytree (pjoin "s".data "template.gdb".data)
        (unique_gdb_path "out2".data "Q".data ⟨2026, 2, 3, 4, 5, 6⟩) ∈
      (main
        ⟨"in2".data, "out2".data, [], "Q".data, false, false⟩
        { isdir := fun _ => true, isfile := fun _ => false,
          tree := [.file "b.dxf".data], scriptDir := "s".data,
          templateExists := true, pathExists := fun _ => true,
          now1 := ⟨2026, 2, 3, 4, 5, 6⟩, now2 := ⟨2026, 2, 3, 4, 5, 6⟩,
          createOk := true, engineOk := true, extent := none,
          mapHost := .ok }).1 :=
  c2_preexisting_store _ _ (by decide) (by decide) (by decide) (by decide)
    (by decide) (by decide) (by decide)

/-! ## Claim C4 — empty discovery fails before any store is touched -/

/-- **C4.**  When CAD-file discovery returns an empty set (and the input
directory itself was valid), the run stops with the `NoInputFiles` error and
nothing else: the trace is exactly that one error, whose payload records
whether recursion was enabled (the two messages differ), and in particular no
store effect and no output-directory creation has happened — the failure is
strictly before template cloning. -/
theorem c4_no_input_files (p : Params) (env : Env)
    (h1 : ¬(p.cad_folder = [] ∨ env.isdir p.cad_folder = false))
    (h2 : find_cad_files p.cad_folder p.search_subfolders env.tree = []) :
    main p env =
      ([.error (.noInputFiles (!p.search_subfolders))], .returnedEarly) ∧
    (∀ e ∈ (main p env).1, e.isStoreEffect = false) ∧
    (∀ q, Event.makedirs q ∉ (main p env).1) ∧
    Err.noInputFiles true ≠ Err.noInputFiles false := by
  unfold main
  rw [if_neg h1, if_pos h2]
  refine ⟨rfl, ?_, ?_, by decide⟩
  · intro e he
    simp only [List.mem_singleton] at he
    subst he
    rfl
  · intro q hq
    simp at hq

/-- **C4, witness.**  A run over a directory containing no CAD files. -/
theorem c4_no_input_files_witness :
    main
      ⟨"in".data, "out".data, [], "P".data, false, false⟩
      { isdir := fun _ => true, isfile := fun _ => false,
        tree := [.file "readme.txt".data], scriptDir := "s".data,
        templateExists := true, pathExists := fun _ => false,
        now1 := ⟨2025, 1, 1, 0, 0, 0⟩, now2 := ⟨2025, 1, 1, 0, 0, 0⟩,
        createOk := true, engineOk := true, extent := none,
        mapHost := .ok } =
      ([.error (.noInputFiles true)], .returnedEarly) :=
  ((c4_no_input_files _ _ (by decide) (by decide)).1)

/-! ## Claim C9 — missing template leaves the created output directory -/

/-- **C9.**  When the fixed template store is absent (and all earlier checks
pass), the run fails with `MissingTemplate`, but the output directory has
already been created: `os.makedirs` appears in the trace and the error is the
trace's last event, so directory creation strictly precedes the template
check; no store effect (template clone or store removal) has occurred. -/
theorem c9_missing_template (p : Params) (env : Env)
    (h1 : ¬(p.cad_folder = [] ∨ env.isdir p.cad_folder = false))
    (h2 : ¬ find_cad_files p.cad_folder p.search_subfolders env.tree = [])
    (h3 : ¬ p.output_folder = [])
    (h4 : env.templateExists = false) :
    (main p env).2 = .returnedEarly ∧
    Event.makedirs p.output_folder ∈ (main p env).1 ∧
    (main p env).1.getLast? = some (.error .missingTemplate) ∧
    (∀ e ∈ (main p env).1, e.isStoreEffect = false) := by
  unfold main
  rw [if_neg h1, if_neg h2, if_neg h3, if_pos h4]
  by_cases hsr : p.prj_file = [] ∨ env.isfile p.prj_file = false
  · rw [if_pos hsr, if_pos hsr]
    refine ⟨rfl, by simp, by rfl, ?_⟩
    intro e he
    simp [msgs] at he
    rcases he with rfl | rfl | rfl | rfl | rfl <;> rfl
  · rw [if_neg hsr, if_neg hsr]
    refine ⟨rfl, by simp, by rfl, ?_⟩
    intro e he
    simp [msgs] at he
    rcases he with rfl | rfl | rfl | rfl <;> rfl

/-- **C9, witness.**  A concrete run whose template store is missing. -/
theorem c9_missing_template_witness :
    (main
      ⟨"in".data, "out".data, [], "P".data, false, false⟩
      { isdir := fun _ => true, isfile := fun _ => false,
        tree := [.file "a.dwg".data], scriptDir := "s".data,
        templateExists := false, pathExists := fun _ => false,
        now1 := ⟨2025, 1, 1, 0, 0, 0⟩, now2 := ⟨2025, 1, 1, 0, 0, 0⟩,
        createOk := true, engineOk := true, extent := none,
        mapHost := .ok }).2 = .returnedEarly ∧
    Event.makedirs "out".data ∈
      (main
        ⟨"in".data, "out".data, [], "P".data, false, false⟩
        { isdir := fun _ => true, isfile := fun _ => false,
          tree := [.file "a.dwg".data], scriptDir := "s".data,
          templateExists := false, pathExists := fun _ => false,
          now1 := ⟨2025, 1, 1, 0, 0, 0⟩, now2 := ⟨2025, 1, 1, 0, 0, 0⟩,
          createOk := true, engineOk := true, extent := none,
          mapHost := .ok }).1 :=
  ⟨(c9_missing_template _ _ (by decide) (by decide) (by decide) (by decide)).1,
    (c9_missing_template _ _ (by decide) (by decide) (by decide)
      (by decide)).2.1⟩

/-! ## Claim C6 — a missing spatial-reference file is not an error -/

theorem count_warn_copy (e : Bool) (a b : Str) (w : Warn) :
    (copy_template_gdb e a b).count (.warning w) = 0 := by
  cases e <;> simp [copy_template_gdb]

theorem count_warn_extent_noProj (x : Option Extent) :
    (warn_if_extent_suspicious x).count (.warning .noProjection) = 0 := by
  cases x with
  | none => rfl
  | some e =>
    by_cases h : 5000000 < |e.xmax - e.xmin| ∨ 5000000 < |e.ymax - e.ymin| <;>
      simp [warn_if_extent_suspicious, h]

theorem count_warn_add_noProj (h : MapHostBehavior) (path : Str) :
    (add_dataset_to_map h path).count (.warning .noProjection) = 0 := by
  cases h <;> simp [add_dataset_to_map]

/-- **C6.**  A run with a valid input directory whose spatial-reference file
is missing or unsupplied succeeds, emits the missing-coordinate-system
warning exactly once, and creates the staging container with no spatial
reference attached. -/
theorem c6_missing_prj (p : Params) (env : Env)
    (h1 : ¬(p.cad_folder = [] ∨ env.isdir p.cad_folder = false))
    (h2 : ¬ find_cad_files p.cad_folder p.search_subfolders env.tree = [])
    (h3 : ¬ p.output_folder = [])
    (h4 : ¬ env.templateExists = false)
    (h5 : ¬ env.createOk = false)
    (h6 : ¬ env.engineOk = false)
    (hprj : p.prj_file = [] ∨ env.isfile p.prj_file = false) :
    (main p env).2 = .completed ∧
    (main p env).1.count (.warning .noProjection) = 1 ∧
    Event.createDataset
        (unique_gdb_path p.output_folder (derive_project_name p) env.now1)
        (allocate_container_name (derive_project_name p) env.now2) none ∈
      (main p env).1 := by
  rw [main_success p env h1 h2 h3 h4 h5 h6]
  simp only [if_pos hprj]
  refine ⟨by trivial, ?_, by simp⟩
  simp only [List.count_append, count_warn_copy, count_warn_extent_noProj,
    msgs]
  by_cases hauto : p.auto_add = true <;>
    simp [hauto, count_warn_add_noProj, List.count_replicate]

/-- **C6, witness.**  A concrete run with no projection file supplied. -/
theorem c6_missing_prj_witness :
    (main
      ⟨"in".data, "out".data, [], "P".data, true, false⟩
      { isdir := fun _ => true, isfile := fun _ => false,
        tree := [.file "a.dwg".data], scriptDir := "s".data,
        templateExists := true, pathExists := fun _ => false,
        now1 := ⟨2025, 1, 1, 0, 0, 0⟩, now2 := ⟨2025, 1, 1, 0, 0, 0⟩,
        createOk := true, engineOk := true, extent := none,
        mapHost := .noActiveMap }).2 = .completed ∧
    (main
      ⟨"in".data, "out".data, [], "P".data, true, false⟩
      { isdir := fun _ => true, isfile := fun _ => false,
        tree := [.file "a.dwg".data], scriptDir := "s".data,
        templateExists := true, pathExists := fun _ => false,
        now1 := ⟨2025, 1, 1, 0, 0, 0⟩, now2 := ⟨2025, 1, 1, 0, 0, 0⟩,
        createOk := true, engineOk := true, extent := none,
        mapHost := .noActiveMap }).1.count (.warning .noProjection) = 1 :=
  ⟨(c6_missing_prj _ _ (by decide) (by decide) (by decide) (by decide)
      (by decide) (by decide) (by decide)).1,
    (c6_missing_prj _ _ (by decide) (by decide) (by decide) (by decide)
      (by decide) (by decide) (by decide)).2.1⟩

/-! ## Claim C7 — visualization-host registration is isolated -/

/-- **C7, counterexample.**  The claim states that a failure raised by the
visualization host is caught and downgraded to a *warning*.  It fails on the
code: the `except` branch of `_add_dataset_to_map` calls `arcpy.AddMessage`
(`"Auto-add to map skipped: …"`), an informational message — the emitted
event list contains no warning at all. -/
theorem c7_counterexample :
    add_dataset_to_map .addRaises "stg".data = [Event.message] ∧
    (add_dataset_to_map .addRaises "stg".data).all
      (fun e => ! e.isWarning) = true := by
  decide

/-- **C7 (amended).**  Any failure of the visualization-host registration is
caught and reported as an informational *message* (not a warning) and never
fails the run — under the usual success preconditions a run completes
whatever the host does (the environment's host behavior is unconstrained
here); the no-active-session condition alone is reported as a warning, not
an error. -/
theorem c7_registration_isolated (p : Params) (env : Env)
    (h1 : ¬(p.cad_folder = [] ∨ env.isdir p.cad_folder = false))
    (h2 : ¬ find_cad_files p.cad_folder p.search_subfolders env.tree = [])
    (h3 : ¬ p.output_folder = [])
    (h4 : ¬ env.templateExists = false)
    (h5 : ¬ env.createOk = false)
    (h6 : ¬ env.engineOk = false) :
    (main p env).2 = .completed ∧
    (∀ path, add_dataset_to_map .projectUnavailable path = [.message] ∧
      add_dataset_to_map .addRaises path = [.message] ∧
      add_dataset_to_map .noActiveMap path = [.warning .noActiveMap] ∧
      (∀ host, (add_dataset_to_map host path).all (fun e => ! e.isError) =
        true)) := by
  refine ⟨?_, fun path => ⟨rfl, rfl, rfl, fun host => ?_⟩⟩
  · rw [main_success p env h1 h2 h3 h4 h5 h6]
  · cases host <;> rfl

/-- **C7, witness.**  A concrete run whose host raises during registration
still completes. -/
theorem c7_registration_isolated_witness :
    (main
      ⟨"in".data, "out".data, [], "P".data, true, false⟩
      { isdir := fun _ => true, isfile := fun _ => false,
        tree := [.file "a.dwg".data], scriptDir := "s".data,
        templateExists := true, pathExists := fun _ => false,
        now1 := ⟨2025, 1, 1, 0, 0, 0⟩, now2 := ⟨2025, 1, 1, 0, 0, 0⟩,
        createOk := true, engineOk := true, extent := none,
        mapHost := .addRaises }).2 = .completed :=
  (c7_registration_isolated _ _ (by decide) (by decide) (by decide)
    (by decide) (by decide) (by decide)).1

/-! ## Claim C5 — the CAD file discoverer -/

theorem goodNameB_spec {n : Str} (h : goodNameB n = true) :
    n ≠ [] ∧ '/' ∉ n := by
  simp only [goodNameB, Bool.and_eq_true, Bool.not_eq_true'] at h
  obtain ⟨h1, h2⟩ := h
  constructor
  · simpa [List.isEmpty_iff] using h1
  · intro hc
    exact absurd (List.elem_iff.mpr hc) (by rw [List.contains] at h2; rw [h2]; simp)

theorem good_head_ne_slash {n : Str} (h : goodNameB n = true) :
    n.head? ≠ some '/' := by
  obtain ⟨h1, h2⟩ := goodNameB_spec h
  intro hc
  exact h2 (List.mem_of_mem_head? (by rw [hc]; simp))

theorem good_getLast_ne_slash {n : Str} (h : goodNameB n = true) :
    n.getLast? ≠ some '/' := by
  obtain ⟨h1, h2⟩ := goodNameB_spec h
  intro hc
  exact h2 (List.mem_of_getLast?_eq_some hc)

/-- For a non-absolute second component, `pjoin a b` is `A ++ b` for a fixed
prefix `A` depending only on `a`. -/
theorem pjoin_eq_append {a b : Str} (hb : b.head? ≠ some '/') :
    pjoin a b =
      (if a = [] ∨ a.getLast? = some '/' then a else a ++ ['/']) ++ b := by
  unfold pjoin
  rw [if_neg hb]
  by_cases h2 : a = [] ∨ a.getLast? = some '/'
  · rw [if_pos h2, if_pos h2]
  · rw [if_neg h2, if_neg h2]
    simp

theorem pjoin_as_append (a b : Str) : ∃ x, pjoin a b = x ++ b := by
  unfold pjoin
  by_cases h1 : b.head? = some '/'
  · exact ⟨[], by rw [if_pos h1]; simp⟩
  · by_cases h2 : a = [] ∨ a.getLast? = some '/'
    · exact ⟨a, by rw [if_neg h1, if_pos h2]⟩
    · exact ⟨a ++ ['/'], by rw [if_neg h1, if_neg h2]; simp⟩

theorem pjoin_inj_of_head {a : Str} {b1 b2 : Str} (h1 : b1.head? ≠ some '/')
    (h2 : b2.head? ≠ some '/') (h : pjoin a b1 = pjoin a b2) : b1 = b2 := by
  rw [pjoin_eq_append h1, pjoin_eq_append h2] at h
  exact List.append_cancel_left h

theorem toLower_append (x y : Str) :
    (x ++ y).map Char.toLower = x.map Char.toLower ++ y.map Char.toLower :=
  List.map_append _ _ _

theorem hasCadExt_append {f : Str} (x : Str) (h : hasCadExt f = true) :
    hasCadExt (x ++ f) = true := by
  simp only [hasCadExt, List.any_eq_true] at h ⊢
  obtain ⟨e, he, hs⟩ := h
  refine ⟨e, he, ?_⟩
  rw [List.isSuffixOf_iff_suffix] at hs ⊢
  rw [toLower_append]
  exact hs.trans (List.suffix_append _ _)

theorem hasCadExt_pjoin {f : Str} (a : Str) (h : hasCadExt f = true) :
    hasCadExt (pjoin a f) = true := by
  obtain ⟨x, hx⟩ := pjoin_as_append a f
  rw [hx]
  exact hasCadExt_append x h

/-- Splitting at the first separator is unambiguous when neither prefix
contains one. -/
theorem split_first_slash {u1 u2 v1 v2 : Str} (hu1 : '/' ∉ u1)
    (hu2 : '/' ∉ u2) (h : u1 ++ '/' :: v1 = u2 ++ '/' :: v2) :
    u1 = u2 ∧ v1 = v2 := by
  induction u1 generalizing u2 with
  | nil =>
    cases u2 with
    | nil => simpa using h
    | cons c t =>
      simp only [List.nil_append, List.cons_append, List.cons.injEq] at h
      obtain ⟨rfl, -⟩ := h
      exact absurd (by simp) hu2
  | cons c t ih =>
    cases u2 with
    | nil =>
      simp only [List.nil_append, List.cons_append, List.cons.injEq] at h
      obtain ⟨rfl, -⟩ := h
      exact absurd (by simp) hu1
    | cons c' t' =>
      simp only [List.cons_append, List.cons.injEq] at h
      obtain ⟨rfl, h⟩ := h
      have hu1' : '/' ∉ t := fun hc => hu1 (List.mem_cons_of_mem _ hc)
      have hu2' : '/' ∉ t' := fun hc => hu2 (List.mem_cons_of_mem _ hc)
      obtain ⟨rfl, rfl⟩ := ih hu1' hu2' h
      exact ⟨rfl, rfl⟩

theorem listdir_nodup {c : List FSTree} (h : wfChildren c = true) :
    (listdir c).Nodup := by
  induction c with
  | nil => simp [listdir]
  | cons t ts ih =>
    simp only [wfChildren, Bool.and_eq_true, Bool.not_eq_true'] at h
    obtain ⟨⟨h1, h2⟩, h3⟩ := h
    simp only [listdir, List.map_cons, List.nodup_cons]
    constructor
    · intro hc
      simp only [listdir] at h3
      exact absurd (List.elem_iff.mpr hc) (by rw [List.contains] at h3; rw [h3]; simp)
    · exact ih h2

theorem listdir_good {c : List FSTree} (h : wfChildren c = true) :
    ∀ n ∈ listdir c, goodNameB n = true := by
  induction c with
  | nil => simp [listdir]
  | cons t ts ih =>
    simp only [wfChildren, Bool.and_eq_true] at h
    obtain ⟨⟨h1, h2⟩, -⟩ := h
    intro n hn
    simp only [listdir, List.map_cons, List.mem_cons] at hn
    rcases hn with rfl | hn
    · cases t with
      | file f => exact h1
      | dir d sub =>
        simp only [wfTree, Bool.and_eq_true] at h1
        exact h1.1
    · exact ih h2 n hn

theorem wfChildren_mem {c : List FSTree} (h : wfChildren c = true) :
    ∀ t ∈ c, wfTree t = true := by
  induction c with
  | nil => simp
  | cons t ts ih =>
    simp only [wfChildren, Bool.and_eq_true] at h
    intro t' ht'
    rcases List.mem_cons.mp ht' with rfl | ht'
    · exact h.1.1
    · exact ih h.1.2 t' ht'

theorem nameOf_good {t : FSTree} (h : wfTree t = true) :
    goodNameB t.nameOf = true := by
  cases t with
  | file f => exact h
  | dir n c =>
    simp only [wfTree, Bool.and_eq_true] at h
    exact h.1

theorem relPaths_head {t : FSTree} (h : wfTree t = true) :
    ∀ r ∈ relPaths t, r ≠ [] ∧ r.head? ≠ some '/' := by
  cases t with
  | file f =>
    intro r hr
    simp only [relPaths] at hr
    by_cases hc : hasCadExt f = true
    · rw [if_pos hc] at hr
      simp only [List.mem_singleton] at hr
      subst hr
      exact ⟨(goodNameB_spec h).1, good_head_ne_slash h⟩
    · rw [if_neg hc] at hr
      simp at hr
  | dir n c =>
    intro r hr
    simp only [relPaths, List.mem_map] at hr
    obtain ⟨r', -, rfl⟩ := hr
    simp only [wfTree, Bool.and_eq_true] at h
    obtain ⟨hne, -⟩ := goodNameB_spec h.1
    refine ⟨by simp [hne], ?_⟩
    rw [head?_append_left hne]
    exact good_head_ne_slash h.1

theorem relPaths_owner {t : FSTree} :
    ∀ r ∈ relPaths t, ∃ rest, r = t.nameOf ++ rest ∧
      (rest = [] ∨ rest.head? = some '/') := by
  cases t with
  | file f =>
    intro r hr
    simp only [relPaths] at hr
    by_cases hc : hasCadExt f = true
    · rw [if_pos hc] at hr
      simp only [List.mem_singleton] at hr
      subst hr
      exact ⟨[], by simp [FSTree.nameOf]⟩
    · rw [if_neg hc] at hr
      simp at hr
  | dir n c =>
    intro r hr
    simp only [relPaths, List.mem_map] at hr
    obtain ⟨r', -, rfl⟩ := hr
    exact ⟨'/' :: r', by simp [FSTree.nameOf]⟩

theorem mem_relPathsList {r : Str} {c : List FSTree} (h : r ∈ relPathsList c) :
    ∃ t ∈ c, r ∈ relPaths t := by
  induction c with
  | nil => simp [relPathsList] at h
  | cons t ts ih =>
    simp only [relPathsList, List.mem_append] at h
    rcases h with h | h
    · exact ⟨t, by simp, h⟩
    · obtain ⟨t', ht', hr⟩ := ih h
      exact ⟨t', List.mem_cons_of_mem _ ht', hr⟩

theorem relPathsList_head {c : List FSTree} (h : wfChildren c = true) :
    ∀ r ∈ relPathsList c, r ≠ [] ∧ r.head? ≠ some '/' := by
  intro r hr
  obtain ⟨t, ht, hr'⟩ := mem_relPathsList hr
  exact relPaths_head (wfChildren_mem h t ht) r hr'

theorem pjoin_pjoin {root n r : Str} (hn : goodNameB n = true)
    (hr : r.head? ≠ some '/') :
    pjoin (pjoin root n) r = pjoin root (n ++ '/' :: r) := by
  obtain ⟨hne, hno⟩ := goodNameB_spec hn
  have hhead := good_head_ne_slash hn
  rw [pjoin_eq_append hhead,
    pjoin_eq_append (show (n ++ '/' :: r).head? ≠ some '/' by
      rw [head?_append_left hne]; exact hhead),
    pjoin_eq_append hr]
  have hcond : ∀ A : Str, ¬(A ++ n = [] ∨ (A ++ n).getLast? = some '/') := by
    intro A
    rintro (hcon | hcon)
    · exact hne (List.append_eq_nil.mp hcon).2
    · rw [List.getLast?_append] at hcon
      cases hn' : n.getLast? with
      | none => exact hne (List.getLast?_eq_none_iff.mp hn')
      | some x =>
        rw [hn'] at hcon
        have hx : x = '/' := by simpa [Option.or] using hcon
        exact good_getLast_ne_slash hn (by rw [hn', hx])
  by_cases hA : root = [] ∨ root.getLast? = some '/'
  · rw [if_pos hA]
    rw [if_neg (hcond root)]
    simp [List.append_assoc]
  · rw [if_neg hA]
    rw [if_neg (hcond (root ++ ['/']))]
    simp [List.append_assoc]

mutual

theorem walkCollect_ext (root : Str) (t : FSTree) :
    ∀ x ∈ walkCollect root t, hasCadExt x = true := by
  cases t with
  | file f =>
    intro x hx
    simp only [walkCollect] at hx
    by_cases h : hasCadExt f = true
    · rw [if_pos h] at hx
      simp only [List.mem_singleton] at hx
      subst hx
      exact hasCadExt_pjoin root h
    · rw [if_neg h] at hx
      simp at hx
  | dir n c =>
    intro x hx
    simp only [walkCollect] at hx
    exact walkCollectList_ext (pjoin root n) c x hx

theorem walkCollectList_ext (root : Str) (c : List FSTree) :
    ∀ x ∈ walkCollectList root c, hasCadExt x = true := by
  cases c with
  | nil =>
    intro x hx
    simp [walkCollectList] at hx
  | cons t ts =>
    intro x hx
    simp only [walkCollectList, List.mem_append] at hx
    rcases hx with hx | hx
    · exact walkCollect_ext root t x hx
    · exact walkCollectList_ext root ts x hx

end

mutual

theorem walkCollect_eq (root : Str) (t : FSTree) (h : wfTree t = true) :
    walkCollect root t = (relPaths t).map (pjoin root) := by
  cases t with
  | file f =>
    simp only [walkCollect, relPaths]
    by_cases hc : hasCadExt f = true
    · rw [if_pos hc, if_pos hc]
      rfl
    · rw [if_neg hc, if_neg hc]
      rfl
  | dir n c =>
    simp only [walkCollect, relPaths]
    simp only [wfTree, Bool.and_eq_true] at h
    rw [walkCollectList_eq (pjoin root n) c h.2]
    rw [List.map_map]
    apply List.map_congr_left
    intro r hr
    simp only [Function.comp_apply]
    exact pjoin_pjoin h.1 (relPathsList_head h.2 r hr).2

theorem walkCollectList_eq (root : Str) (c : List FSTree)
    (h : wfChildren c = true) :
    walkCollectList root c = (relPathsList c).map (pjoin root) := by
  cases c with
  | nil => rfl
  | cons t ts =>
    simp only [wfChildren, Bool.and_eq_true] at h
    simp only [walkCollectList, relPathsList, List.map_append]
    rw [walkCollect_eq root t h.1.1, walkCollectList_eq root ts h.1.2]

end

mutual

theorem relPaths_nodup (t : FSTree) (h : wfTree t = true) :
    (relPaths t).Nodup := by
  cases t with
  | file f =>
    simp only [relPaths]
    by_cases hc : hasCadExt f = true
    · rw [if_pos hc]; simp
    · rw [if_neg hc]; simp
  | dir n c =>
    simp only [relPaths]
    simp only [wfTree, Bool.and_eq_true] at h
    apply List.Nodup.map
    · intro r1 r2 hr
      have := List.append_cancel_left hr
      simpa using this
    · exact relPathsList_nodup c h.2

theorem relPathsList_nodup (c : List FSTree) (h : wfChildren c = true) :
    (relPathsList c).Nodup := by
  cases c with
  | nil => simp [relPathsList]
  | cons t ts =>
    have h' := h
    simp only [wfChildren, Bool.and_eq_true, Bool.not_eq_true'] at h'
    obtain ⟨⟨h1, h2⟩, h3⟩ := h'
    simp only [relPathsList]
    apply List.Nodup.append (relPaths_nodup t h1) (relPathsList_nodup ts h2)
    intro r hr1 hr2
    obtain ⟨t', ht', hr'⟩ := mem_relPathsList hr2
    have h1' := wfChildren_mem h2 t' ht'
    obtain ⟨rest1, he1, hc1⟩ := relPaths_owner r hr1
    obtain ⟨rest2, he2, hc2⟩ := relPaths_owner r hr'
    have hg1 := goodNameB_spec (nameOf_good h1)
    have hg2 := goodNameB_spec (nameOf_good h1')
    have hnames : t.nameOf = t'.nameOf := by
      rw [he1] at he2
      rcases hc1 with rfl | hh1 <;> rcases hc2 with rfl | hh2
      · simpa using he2
      · exfalso
        apply hg1.2
        cases hrest2 : rest2 with
        | nil => rw [hrest2] at hh2; simp at hh2
        | cons a tl =>
          rw [hrest2] at hh2 he2
          simp only [List.head?_cons, Option.some.injEq] at hh2
          subst hh2
          simp only [List.append_nil] at he2
          rw [he2]
          simp
      · exfalso
        apply hg2.2
        cases hrest1 : rest1 with
        | nil => rw [hrest1] at hh1; simp at hh1
        | cons a tl =>
          rw [hrest1] at hh1 he2
          simp only [List.head?_cons, Option.some.injEq] at hh1
          subst hh1
          simp only [List.append_nil] at he2
          rw [← he2]
          simp
      · cases hrest1 : rest1 with
        | nil => rw [hrest1] at hh1; simp at hh1
        | cons a tl =>
          cases hrest2 : rest2 with
          | nil => rw [hrest2] at hh2; simp at hh2
          | cons a' tl' =>
            rw [hrest1] at hh1 he2
            rw [hrest2] at hh2 he2
            simp only [List.head?_cons, Option.some.injEq] at hh1 hh2
            subst hh1
            subst hh2
            exact (split_first_slash hg1.2 hg2.2 he2).1
    apply absurd (List.elem_iff.mpr
      (show t.nameOf ∈ listdir ts by
        rw [hnames]
        exact List.mem_map_of_mem _ ht'))
    rw [List.contains] at h3
    rw [h3]
    simp

end

theorem filterMap_guard {p : Str → Bool} {g : Str → Str} (l : List Str) :
    l.filterMap (fun a => if p a = true then some (g a) else none) =
      (l.filter p).map g := by
  induction l with
  | nil => rfl
  | cons a t ih =>
    by_cases h : p a = true <;>
      simp [List.filterMap_cons, List.filter_cons, h, ih]

theorem sortStr_sorted_lt {l : List Str} (h : l.Nodup) :
    (sortStr l).Sorted (· < ·) :=
  (List.sorted_insertionSort (· ≤ ·) l).lt_of_le
    ((List.perm_insertionSort (· ≤ ·) l).nodup_iff.mpr h)

theorem mem_sortStr {p : Str} {l : List Str} : p ∈ sortStr l ↔ p ∈ l :=
  (List.perm_insertionSort (· ≤ ·) l).mem_iff

/-- **C5.**  For every folder, recursion flag and well-formed directory tree,
the discoverer returns a strictly sorted (hence duplicate-free) list of paths
that all end, case-insensitively, in one of the three CAD extensions; with
`recursive = false` every returned path is `os.path.join` of the folder with
one of its immediate entries, and with `recursive = true` the returned paths
are exactly the matching files of the full subtree (the folder joined with
each matching subtree-relative path). -/
theorem c5_discoverer (folder : Str) (recursive : Bool) (c : List FSTree)
    (hwf : wfChildren c = true) :
    (find_cad_files folder recursive c).Sorted (· < ·) ∧
    (∀ p ∈ find_cad_files folder recursive c, hasCadExt p = true) ∧
    (recursive = false → ∀ p ∈ find_cad_files folder recursive c,
      ∃ n ∈ listdir c, p = pjoin folder n) ∧
    (recursive = true → ∀ p, p ∈ find_cad_files folder recursive c ↔
      ∃ r ∈ relPathsList c, p = pjoin folder r) := by
  cases recursive with
  | false =>
    simp only [find_cad_files, if_neg (by decide : ¬ (false : Bool) = true)]
    rw [filterMap_guard (listdir c)]
    have hgood : ∀ n ∈ (listdir c).filter hasCadExt, goodNameB n = true :=
      fun n hn => listdir_good hwf n (List.mem_of_mem_filter hn)
    have hnodup : (((listdir c).filter hasCadExt).map
        (fun f => pjoin folder f)).Nodup := by
      apply List.Nodup.map_on
      · intro x hx y hy hxy
        exact pjoin_inj_of_head (good_head_ne_slash (hgood x hx))
          (good_head_ne_slash (hgood y hy)) hxy
      · exact (listdir_nodup hwf).filter _
    refine ⟨sortStr_sorted_lt hnodup, ?_, ?_, by simp⟩
    · intro p hp
      rw [mem_sortStr] at hp
      obtain ⟨f, hf, rfl⟩ := List.mem_map.mp hp
      exact hasCadExt_pjoin folder (List.of_mem_filter hf)
    · intro _ p hp
      rw [mem_sortStr] at hp
      obtain ⟨f, hf, rfl⟩ := List.mem_map.mp hp
      exact ⟨f, List.mem_of_mem_filter hf, rfl⟩
  | true =>
    simp only [find_cad_files, if_pos rfl]
    refine ⟨?_, ?_, fun h => absurd h (by decide), ?_⟩
    · apply sortStr_sorted_lt
      rw [walkCollectList_eq folder c hwf]
      apply List.Nodup.map_on
      · intro x hx y hy hxy
        exact pjoin_inj_of_head (relPathsList_head hwf x hx).2
          (relPathsList_head hwf y hy).2 hxy
      · exact relPathsList_nodup c hwf
    · intro p hp
      rw [mem_sortStr] at hp
      exact walkCollectList_ext folder c p hp
    · intro _ p
      rw [mem_sortStr, walkCollectList_eq folder c hwf]
      constructor
      · intro hp
        obtain ⟨r, hr, hrp⟩ := List.mem_map.mp hp
        exact ⟨r, hr, hrp.symm⟩
      · rintro ⟨r, hr, rfl⟩
        exact List.mem_map_of_mem _ hr

/-- **C5, witness.**  The theorem instantiated on a concrete well-formed
tree, recursive mode: the result is strictly sorted. -/
theorem c5_discoverer_witness :
    (find_cad_files "in".data true
      [.file "b.DWG".data, .file "a.dwg".data,
       .dir "sub".data [.file "c.dxf".data], .file "x.txt".data]).Sorted
      (· < ·) :=
  (c5_discoverer "in".data true
    [.file "b.DWG".data, .file "a.dwg".data,
     .dir "sub".data [.file "c.dxf".data], .file "x.txt".data] (by decide)).1

/-! ## Claim C10 — trailing separators and the derived identifier -/

theorem splitSlash_ne_nil (p : Str) : splitSlash p ≠ [] := by
  cases p with
  | nil => simp [splitSlash]
  | cons c rest =>
    simp only [splitSlash]
    by_cases h : c = '/'
    · simp [h]
    · rw [if_neg h]
      cases hs : splitSlash rest with
      | nil => simp
      | cons a t => simp

theorem splitSlash_append_sep (p : Str) :
    splitSlash (p ++ ['/']) = splitSlash p ++ [[]] := by
  induction p with
  | nil => rfl
  | cons c rest ih =>
    simp only [List.cons_append, splitSlash]
    by_cases h : c = '/'
    · simp [h, ih]
    · rw [if_neg h, if_neg h]
      rw [show splitSlash (rest.append ['/']) = splitSlash rest ++ [[]] from ih]
      cases hs : splitSlash rest with
      | nil => exact absurd hs (splitSlash_ne_nil rest)
      | cons a t => simp

theorem splitSlash_no_slash (p : Str) : ∀ x ∈ splitSlash p, '/' ∉ x := by
  induction p with
  | nil => simp [splitSlash]
  | cons c rest ih =>
    intro x hx
    simp only [splitSlash] at hx
    by_cases h : c = '/'
    · rw [if_pos h] at hx
      rcases List.mem_cons.mp hx with rfl | hx
      · simp
      · exact ih x hx
    · rw [if_neg h] at hx
      cases hs : splitSlash rest with
      | nil => exact absurd hs (splitSlash_ne_nil rest)
      | cons a t =>
        rw [hs] at hx
        rcases List.mem_cons.mp hx with rfl | hx
        · intro hc
          rcases List.mem_cons.mp hc with h' | h'
          · exact h h'.symm
          · exact ih a (by rw [hs]; simp) h'
        · exact ih x (by rw [hs]; exact List.mem_cons_of_mem _ hx)

theorem processComps_append_empty (b : Bool) (cs : List Str) :
    ∀ stack, processComps b stack (cs ++ [[]]) = processComps b stack cs := by
  induction cs with
  | nil =>
    intro stack
    simp [processComps]
  | cons comp rest ih =>
    intro stack
    simp only [List.cons_append, processComps]
    by_cases h1 : comp = [] ∨ comp = ['.']
    · rw [if_pos h1, if_pos h1]
      exact ih stack
    · rw [if_neg h1, if_neg h1]
      by_cases h2 : comp ≠ dotdot ∨ (b = false ∧ stack = []) ∨
          stack.head? = some dotdot
      · rw [if_pos h2, if_pos h2]
        exact ih (comp :: stack)
      · rw [if_neg h2, if_neg h2]
        cases stack with
        | nil => exact ih []
        | cons s ss => exact ih ss

theorem processComps_good (b : Bool) (cs : List Str)
    (hcs : ∀ x ∈ cs, '/' ∉ x) :
    ∀ stack, (∀ x ∈ stack, x ≠ [] ∧ '/' ∉ x) →
      ∀ x ∈ processComps b stack cs, x ≠ [] ∧ '/' ∉ x := by
  induction cs with
  | nil =>
    intro stack hstack x hx
    simp only [processComps, List.mem_reverse] at hx
    exact hstack x hx
  | cons comp rest ih =>
    intro stack hstack x hx
    have hcs' : ∀ x ∈ rest, '/' ∉ x := fun y hy =>
      hcs y (List.mem_cons_of_mem _ hy)
    simp only [processComps] at hx
    by_cases h1 : comp = [] ∨ comp = ['.']
    · rw [if_pos h1] at hx
      exact ih hcs' stack hstack x hx
    · rw [if_neg h1] at hx
      by_cases h2 : comp ≠ dotdot ∨ (b = false ∧ stack = []) ∨
          stack.head? = some dotdot
      · rw [if_pos h2] at hx
        apply ih hcs' (comp :: stack) _ x hx
        intro y hy
        rcases List.mem_cons.mp hy with rfl | hy
        · refine ⟨?_, hcs y (by simp)⟩
          intro hc
          exact h1 (Or.inl hc)
        · exact hstack y hy
      · rw [if_neg h2] at hx
        cases stack with
        | nil => exact ih hcs' [] (by simp) x hx
        | cons s ss =>
          apply ih hcs' ss _ x hx
          intro y hy
          exact hstack y (List.mem_cons_of_mem _ hy)

theorem take_one_append {p : Str} (h : p ≠ []) (v : Str) :
    (p ++ v).take 1 = p.take 1 := by
  cases p with
  | nil => exact absurd rfl h
  | cons c t => simp

theorem initSlashes_zero_iff {p : Str} :
    initSlashes p = 0 ↔ ¬ p.take 1 = ['/'] := by
  unfold initSlashes
  by_cases h1 : p.take 1 = ['/']
  · rw [if_pos h1]
    by_cases h2 : p.take 2 = ['/', '/'] ∧ ¬ p.take 3 = ['/', '/', '/'] <;>
      simp [h2, h1]
  · rw [if_neg h1]
    simp [h1]

theorem basename_append_final {u v : Str} (hv : '/' ∉ v)
    (hu : u = [] ∨ u.getLast? = some '/') : basename (u ++ v) = v := by
  unfold basename
  rw [List.reverse_append]
  rw [List.takeWhile_append_of_pos (by
    intro a ha
    simp only [List.mem_reverse] at ha
    simp only [ne_eq, decide_eq_true_eq]
    intro hc
    exact hv (hc ▸ ha))]
  rcases hu with rfl | hu
  · simp
  · have hh : u.reverse.head? = some '/' := by
      rw [List.head?_reverse]
      exact hu
    cases hr : u.reverse with
    | nil => simp [hr] at hh
    | cons a t =>
      rw [hr] at hh
      simp only [List.head?_cons, Option.some.injEq] at hh
      subst hh
      simp [List.takeWhile_cons]

theorem joinComps_concat (l : List Str) (x : Str) :
    joinComps (l ++ [x]) =
      (if l = [] then [] else joinComps l ++ ['/']) ++ x := by
  induction l with
  | nil => simp [joinComps]
  | cons c t ih =>
    cases t with
    | nil => simp [joinComps]
    | cons c' t' =>
      have e1 : joinComps ((c :: c' :: t') ++ [x]) =
          c ++ '/' :: joinComps ((c' :: t') ++ [x]) := by
        simp only [List.cons_append]
        rfl
      rw [e1, ih, if_neg (by simp), if_neg (by simp)]
      simp [joinComps, List.append_assoc]

theorem basename_norm_out (k : Nat) {C : List Str} (hne : C ≠ [])
    (hgood : ∀ x ∈ C, x ≠ [] ∧ '/' ∉ x) :
    basename (if List.replicate k '/' ++ joinComps C = [] then ['.']
      else List.replicate k '/' ++ joinComps C) = C.getLast hne := by
  obtain ⟨l, x, hC'⟩ : ∃ l x, C = l ++ [x] := by
    rcases List.eq_nil_or_concat C with rfl | ⟨l, x, hcc⟩
    · exact absurd rfl hne
    · exact ⟨l, x, by rw [hcc, List.concat_eq_append]⟩
  subst hC'
  have hx := hgood x (by simp)
  have hout : List.replicate k '/' ++ joinComps (l ++ [x]) =
      (List.replicate k '/' ++ (if l = [] then [] else joinComps l ++ ['/']))
        ++ x := by
    rw [joinComps_concat, List.append_assoc]
  rw [hout]
  rw [if_neg (by
    intro hcon
    exact hx.1 (List.append_eq_nil.mp hcon).2)]
  rw [basename_append_final hx.2 (by
    by_cases hl : l = []
    · rw [if_pos hl]
      cases k with
      | zero => simp
      | succ m =>
        right
        simp only [List.append_nil]
        rw [List.replicate_succ']
        exact List.getLast?_concat _
    · rw [if_neg hl]
      right
      rw [← List.append_assoc]
      exact List.getLast?_concat _)]
  exact (List.getLast_concat _).symm

theorem basename_slashes (k : Nat) :
    basename (if List.replicate k '/' ++ joinComps [] = [] then ['.']
      else List.replicate k '/' ++ joinComps []) =
      (if k = 0 then ['.'] else []) := by
  cases k with
  | zero => decide
  | succ m =>
    rw [if_neg (by simp [joinComps, List.replicate_succ])]
    rw [if_neg (by omega)]
    have e : List.replicate (m + 1) '/' ++ joinComps [] =
        '/' :: List.replicate m '/' := by
      simp [joinComps, List.replicate_succ]
    rw [e]
    unfold basename
    rw [show ('/' :: List.replicate m '/').reverse = '/' :: List.replicate m '/'
      from by
        rw [show ('/' :: List.replicate m '/') = List.replicate (m + 1) '/'
          from (List.replicate_succ _ _).symm, List.reverse_replicate]]
    rw [List.takeWhile_cons]
    simp

/-- **Shared C10 lemma:** appending one trailing separator does not change
`basename(normpath(...))`. -/
theorem basename_normpath_eq (p : Str) (hp : p ≠ []) :
    basename (normpath (p ++ ['/'])) = basename (normpath p) := by
  unfold normpath
  rw [if_neg hp, if_neg (by simp : ¬ (p ++ ['/']) = ([] : Str))]
  dsimp only
  have hflag : (decide (initSlashes (p ++ ['/']) ≠ 0) : Bool) =
      decide (initSlashes p ≠ 0) := by
    apply decide_eq_decide.mpr
    rw [not_iff_not]
    rw [initSlashes_zero_iff, initSlashes_zero_iff, take_one_append hp]
  have hcomps : processComps (decide (initSlashes (p ++ ['/']) ≠ 0)) []
        (splitSlash (p ++ ['/'])) =
      processComps (decide (initSlashes p ≠ 0)) [] (splitSlash p) := by
    rw [splitSlash_append_sep, hflag, processComps_append_empty]
  rw [hcomps]
  set C := processComps (decide (initSlashes p ≠ 0)) [] (splitSlash p)
    with hC
  by_cases hCe : C = []
  · rw [hCe]
    rw [basename_slashes, basename_slashes]
    have hzero : initSlashes (p ++ ['/']) = 0 ↔ initSlashes p = 0 := by
      rw [initSlashes_zero_iff, initSlashes_zero_iff, take_one_append hp]
    by_cases hk : initSlashes p = 0
    · rw [if_pos hk, if_pos (hzero.mpr hk)]
    · rw [if_neg hk, if_neg (fun hcon => hk (hzero.mp hcon))]
  · have hgood : ∀ x ∈ C, x ≠ [] ∧ '/' ∉ x := by
      rw [hC]
      exact processComps_good _ _ (splitSlash_no_slash p) [] (by simp)
    rw [basename_norm_out _ hCe hgood, basename_norm_out _ hCe hgood]

/-- **C10, counterexample.**  The claim asserts the derived identifier is
non-empty.  It fails on the code: for the input directory `"d/_"` (a
directory named `"_"`), the derived identifier is the empty string — both
with and without a trailing separator. -/
theorem c10_counterexample :
    default_project_identifier "d/_".data = [] ∧
    default_project_identifier "d/_/".data = [] := by
  decide

/-- **C10 (amended).**  For every non-empty input-directory path, the
project identifier derived when no explicit project name is supplied is
invariant under any number of trailing path separators, because the base
name is taken from the normalized path; the identifier may, however, be
empty (see the counterexample). -/
theorem c10_trailing_sep_invariant (folder : Str) (h : folder ≠ [])
    (n : Nat) :
    default_project_identifier (folder ++ List.replicate n '/') =
      default_project_identifier folder := by
  induction n with
  | zero => simp
  | succ m ih =>
    rw [show folder ++ List.replicate (m + 1) '/' =
        (folder ++ List.replicate m '/') ++ ['/'] by
      rw [List.replicate_succ', ← List.append_assoc]]
    unfold default_project_identifier
    rw [basename_normpath_eq _ (by simp [h])]
    exact ih

/-- **C10, witness.**  The amended theorem at `"data/proj"` with two
trailing separators. -/
theorem c10_trailing_sep_invariant_witness :
    default_project_identifier ("data/proj".data ++ List.replicate 2 '/') =
      default_project_identifier "data/proj".data :=
  c10_trailing_sep_invariant "data/proj".data (by decide) 2

/-! ## Claim C8 — the extent sanity checker -/

/-- **C8.**  For every container whose bounding extent can be read, the
checker emits the suspicious-extent warning exactly when the extent's width
or height exceeds 5,000,000 linear units; when the extent cannot be read
(`arcpy.Describe` raising, modelled by `none`) it emits nothing, and the
function is total, i.e. never raises. -/
theorem c8_extent_checker (oe : Option Extent) :
    (Event.warning .extentSuspicious ∈ warn_if_extent_suspicious oe ↔
      ∃ e, oe = some e ∧
        (5000000 < |e.xmax - e.xmin| ∨ 5000000 < |e.ymax - e.ymin|)) ∧
    warn_if_extent_suspicious none = [] := by
  refine ⟨?_, rfl⟩
  cases oe with
  | none => simp [warn_if_extent_suspicious]
  | some e =>
    by_cases h : 5000000 < |e.xmax - e.xmin| ∨ 5000000 < |e.ymax - e.ymin| <;>
      simp [warn_if_extent_suspicious, h]

end CadToGdb
